import Mathlib

/-!
Verification development for the Moonstone resume-tailoring tool.

The repository's core is a client-side request-orchestration layer around a
remote chat-completion API: a transport with retry (src/utils/pplxApi.ts,
given here as the unnamed module part_004), a keyword parsing/enrichment
pipeline (src/utils/keywordExtractor.ts), a resume-formatting pipeline
(src/utils/resumeFormatter.ts, plus an earlier variant in part_003), and a UI
component with a local fallback extractor (KeywordMatchVisualizer.tsx).

Modelling conventions:
* JavaScript strings are embedded as lists of characters (abbrev Str).
* Each JavaScript regular-expression operation used by the code is compiled by
  hand into a dedicated recursive scanner; every scanner's doc comment cites
  the regex it implements.  The simplified whitespace class covers the ASCII
  whitespace characters (space, tab, newline, carriage return, vertical tab,
  form feed) plus NBSP; full Unicode space classes are not modelled, and
  dollar-escape sequences inside computed replacement strings of
  String.prototype.replace are spliced literally (no input in this development
  contains them).
* The external network call (axios) is modelled by passing the outcome of each
  attempt as a parameter; an exception thrown by the code is an `Except.error`
  value.  JSON.parse is an external browser builtin, so it is likewise a
  parameter (any function from strings to an optional parsed array); concrete
  theorems instantiate it with the small reference parser jsonParseSimple
  below, which agrees with JSON.parse on every input those theorems touch.
* Global mutable state (pending-request set, cache, validation flags) is
  threaded explicitly; the concurrency of the extraction orchestrator is given
  a small cooperative event-loop semantics in namespace Single below, whose
  tick is one 500 ms poll interval.
-/

set_option maxRecDepth 20000

namespace Moonstone

/-- JavaScript strings, embedded as lists of characters. -/
abbrev Str := List Char

/-- Convenience conversion from Lean string literals. -/
def lit (s : String) : Str := s.data

/-- The character class of the JavaScript regex token backslash-s, restricted
to its ASCII members plus NBSP (U+00A0).  All inputs appearing in the sources
and in the theorems below use only these whitespace characters. -/
def isJsSpace (c : Char) : Bool :=
  c == ' ' || c == '\t' || c == '\n' || c == '\r' ||
  c == '\x0b' || c == '\x0c' || c.val == 0xa0

/-- The character class of the JavaScript regex token backslash-w:
ASCII letters, digits and the underscore. -/
def isWordChar (c : Char) : Bool :=
  c.isAlpha || c.isDigit || c == '_'

/-- String.prototype.trim: remove leading and trailing whitespace. -/
def jsTrim (s : Str) : Str :=
  ((s.dropWhile isJsSpace).reverse.dropWhile isJsSpace).reverse

/-- String.prototype.toLowerCase (adequate for the ASCII data handled here). -/
def strLower (s : Str) : Str := s.map Char.toLower

/-- Does the second string start with the first?  (String.prototype.startsWith.) -/
def strStarts : Str → Str → Bool
  | [], _ => true
  | _ :: _, [] => false
  | p :: ps, c :: cs => p == c && strStarts ps cs

/-- String.prototype.includes: does pat occur in the string? -/
def strHas (pat : Str) : Str → Bool
  | [] => strStarts pat []
  | c :: cs => strStarts pat (c :: cs) || strHas pat cs

/-- String.prototype.indexOf, returning none for -1. -/
def strIndexOf (pat : Str) : Str → Option Nat
  | [] => if strStarts pat [] then some 0 else none
  | c :: cs =>
    if strStarts pat (c :: cs) then some 0
    else (strIndexOf pat cs).map (· + 1)

/-- String.prototype.endsWith. -/
def strEnds (pat s : Str) : Bool :=
  strStarts pat (s.drop (s.length - pat.length))

/-- String.prototype.replace with a plain string pattern: replace the first
occurrence only (this is the JavaScript semantics of str.replace(pat, rep)
when pat is a string, used by the marker-stripping code). -/
def replaceFirstStr (pat rep : Str) : Str → Str
  | [] => if pat.isEmpty then rep else []
  | c :: cs =>
    if strStarts pat (c :: cs) then rep ++ (c :: cs).drop pat.length
    else c :: replaceFirstStr pat rep cs

/-- A global regex replace compiled to a scanner.  The matcher m receives the
current suffix together with a flag telling whether the position is a line
start (for multiline anchors) and returns, on a match, the replacement to emit
and the number of characters consumed (always at least one for the patterns in
this development).  Scanning resumes after the consumed characters, as with
the JavaScript g flag; the skip counter threads the consumed characters
through so the line-start flag stays accurate. -/
def scanReplaceGo (m : Bool → Str → Option (Str × Nat)) :
    Bool → Nat → Str → Str
  | _, skip + 1, c :: cs => scanReplaceGo m (c == '\n') skip cs
  | ls, 0, c :: cs =>
    match m ls (c :: cs) with
    | some (rep, k) => rep ++ scanReplaceGo m (c == '\n') (k - 1) cs
    | none => c :: scanReplaceGo m (c == '\n') 0 cs
  | _, _, [] => []

/-- Run a global regex replace from the start of the string (position 0 is a
line start). -/
def scanReplace (m : Bool → Str → Option (Str × Nat)) (s : Str) : Str :=
  scanReplaceGo m true 0 s

/-- Collect all matches of a global regex (String.prototype.match with g):
the matcher returns the matched text and its length. -/
def scanMatchesGo (m : Str → Option (Str × Nat)) : Nat → Str → List Str
  | skip + 1, _ :: cs => scanMatchesGo m skip cs
  | 0, c :: cs =>
    match m (c :: cs) with
    | some (mt, k) => mt :: scanMatchesGo m (k - 1) cs
    | none => scanMatchesGo m 0 cs
  | _, [] => []

/-- All matches of a global regex. -/
def scanMatches (m : Str → Option (Str × Nat)) (s : Str) : List Str :=
  scanMatchesGo m 0 s

/-- Remove every character satisfying p (a global character-class delete,
for regexes of the shape some-class replaced by the empty string). -/
def removeChars (p : Char → Bool) (s : Str) : Str :=
  s.filter (fun c => !(p c))

end Moonstone

namespace Moonstone.PplxApi

/-!
API Transport: callPplxApi from the unnamed module part_004 (the pplxApi.ts
variant with retry).  The axios POST is external, so the outcome of the i-th
attempt is supplied by a function from attempt indices to outcomes.  A thrown
JavaScript error is an Except.error result; the run also records how many
attempts were made and the inter-attempt delays, so the retry discipline is
visible in the model.
-/

/-- Outcome classification of one axios attempt.  ECONNABORTED is the axios
timeout code; any other failure carries the upstream status and response body
when the error is an axios error with a response. -/
inductive PplxFailure where
  | timeoutFail : PplxFailure
  | httpFail (status : Option Nat) (body : Str) : PplxFailure
deriving DecidableEq, Repr

/-- The outcome of one attempt of the axios POST. -/
inductive PplxAttempt where
  | ok (content : Str) : PplxAttempt
  | err (f : PplxFailure) : PplxAttempt
deriving DecidableEq, Repr

/-- The error finally thrown by callPplxApi. -/
inductive PplxError where
  | noApiKey : PplxError
  | upstream (f : PplxFailure) : PplxError
deriving DecidableEq, Repr

/-- The observable result of one callPplxApi call: the returned content or
thrown error, the number of axios attempts made, and the delays (ms) slept
between attempts. -/
structure TransportRun where
  result : Except PplxError Str
  attemptsMade : Nat
  delaysMs : List Nat
deriving Repr

/-- JavaScript defaulting via the logical-or operator: options.x or d is d
when x is undefined and also when x is 0 (0 is falsy). -/
def jsOrDefault (o : Option Nat) (d : Nat) : Nat :=
  match o with
  | none => d
  | some n => if n = 0 then d else n

/-- The while loop of callPplxApi (part_004 lines 46 to 105): attempt number
idx runs; on success the content is returned; on a timeout with retries left
the loop sleeps 2000 ms and retries; on a timeout with no retries left, or on
any other failure, the error of the current (equivalently, last) attempt is
thrown immediately. -/
def pplxRetryLoop (attempt : Nat → PplxAttempt) : Nat → Nat → TransportRun
  | idx, 0 =>
    match attempt idx with
    | .ok s => { result := .ok s, attemptsMade := 1, delaysMs := [] }
    | .err .timeoutFail =>
      { result := .error (.upstream .timeoutFail), attemptsMade := 1,
        delaysMs := [] }
    | .err (.httpFail st body) =>
      { result := .error (.upstream (.httpFail st body)), attemptsMade := 1,
        delaysMs := [] }
  | idx, r + 1 =>
    match attempt idx with
    | .ok s => { result := .ok s, attemptsMade := 1, delaysMs := [] }
    | .err .timeoutFail =>
      let rest := pplxRetryLoop attempt (idx + 1) r
      { result := rest.result, attemptsMade := rest.attemptsMade + 1,
        delaysMs := 2000 :: rest.delaysMs }
    | .err (.httpFail st body) =>
      { result := .error (.upstream (.httpFail st body)), attemptsMade := 1,
        delaysMs := [] }

/-- callPplxApi (part_004 lines 24 to 109): a missing credential is an
immediately thrown error with no attempt made; otherwise the retry loop runs
with maxRetries = options.retries or-default 2. -/
def callPplxApi (apiKey : Option Str) (retriesOpt : Option Nat)
    (attempt : Nat → PplxAttempt) : TransportRun :=
  match apiKey with
  | none => { result := .error .noApiKey, attemptsMade := 0, delaysMs := [] }
  | some _ => pplxRetryLoop attempt 0 (jsOrDefault retriesOpt 2)

end Moonstone.PplxApi

namespace Moonstone.ResumeFormatter

open Moonstone.PplxApi

/-!
Formatting Orchestrator: fixResumeFormatting from
src/src/utils/resumeFormatter.ts.  The transport call of line 117 is the
part_004 callPplxApi whose outcome is passed in as an Except value; the
prompt-building code (lines 45 to 114) only feeds that call and so does not
appear in the output path, except that the truncation it sends upstream is
kept below as truncatedContent for reference.
-/

/-- The processed-content sentinel suffix. -/
def formattedMarker : Str := lit "___FORMATTED___"

/-- The fixed input cap (line 36). -/
def MAX_CONTENT_LENGTH : Nat := 6000

/-- The bullet-like glyphs of the character class in lines 133 and 137. -/
def bulletGlyphs : List Char := ['●', '○', '◆', '◇', '▪', '▫', '■', '□']

/-- Is the character a hyphen or bullet (the class in line 135)? -/
def isDashOrBullet (c : Char) : Bool := c == '-' || c == '•'

/-- Scanner for the global regex of line 131: a bullet character followed by
optional whitespace becomes a hyphen and space. -/
def bulletDotMatcher : Bool → Str → Option (Str × Nat)
  | _, '•' :: cs => some (lit "- ", 1 + (cs.takeWhile isJsSpace).length)
  | _, _ => none

/-- Scanner for the global regex of line 133: any other bullet-like glyph
followed by optional whitespace becomes a hyphen and space. -/
def glyphMatcher : Bool → Str → Option (Str × Nat)
  | _, c :: cs =>
    if bulletGlyphs.contains c then
      some (lit "- ", 1 + (cs.takeWhile isJsSpace).length)
    else none
  | _, [] => none

/-- Scanner for the global regex of line 135: two hyphen-or-bullet characters
separated and followed by optional whitespace collapse to one hyphen. -/
def doubleBulletMatcher : Bool → Str → Option (Str × Nat)
  | _, c :: cs =>
    if isDashOrBullet c then
      let w1 := cs.takeWhile isJsSpace
      match cs.drop w1.length with
      | d :: ds =>
        if isDashOrBullet d then
          some (lit "- ", 1 + w1.length + 1 + (ds.takeWhile isJsSpace).length)
        else none
      | [] => none
    else none
  | _, [] => none

/-- Scanner for the global multiline regex of line 137: at a line start,
captured leading whitespace, then a glyph and optional whitespace become the
captured whitespace and a hyphen.  (The whitespace class may span newlines;
greediness needs no backtracking because a glyph is not whitespace.) -/
def lineStartBulletMatcher : Bool → Str → Option (Str × Nat)
  | ls, s =>
    if ls then
      let w1 := s.takeWhile isJsSpace
      match s.drop w1.length with
      | g :: gs =>
        if g == '•' || bulletGlyphs.contains g then
          some (w1 ++ lit "- ",
            w1.length + 1 + (gs.takeWhile isJsSpace).length)
        else none
      | [] => none
    else none

/-- The manual bullet post-processing chain of lines 129 to 137, in source
order. -/
def bulletPass (s : Str) : Str :=
  scanReplace lineStartBulletMatcher
    (scanReplace doubleBulletMatcher
      (scanReplace glyphMatcher
        (scanReplace bulletDotMatcher s)))

/-- Scanner for the global regex of lines 149, 170 and 189: a newline,
optional whitespace and a bullet with trailing whitespace become a newline
and hyphen. -/
def newlineBulletMatcher : Bool → Str → Option (Str × Nat)
  | _, '\n' :: cs =>
    let w1 := cs.takeWhile isJsSpace
    match cs.drop w1.length with
    | '•' :: ds =>
      some (lit "\n- ", 1 + w1.length + 1 + (ds.takeWhile isJsSpace).length)
    | _ => none
  | _, _ => none

/-- Largest index of a character of w other than a newline (used for the
backtracking of the greedy whitespace before the negated class of line
151). -/
def lastIdxNotNl (w : Str) : Option Nat :=
  match w.reverse.findIdx? (fun c => !(c == '\n')) with
  | some j => some (w.length - 1 - j)
  | none => none

/-- Scanner for the global regex of line 151: a starred group, optional
whitespace, then one character that is neither hyphen nor newline; the
replacement re-emits the group, a newline, a hyphen and the character.  The
greedy whitespace backtracks when the next character is a hyphen or the
string ends, landing on the last non-newline whitespace character if any. -/
def starGroupMatcher : Bool → Str → Option (Str × Nat)
  | _, '*' :: cs =>
    let body := cs.takeWhile (fun c => !(c == '*'))
    if body.isEmpty then none
    else
      match cs.drop body.length with
      | '*' :: rest =>
        let w := rest.takeWhile isJsSpace
        let nextC := (rest.drop w.length).head?
        let kOpt :=
          match nextC with
          | some ch => if ch == '-' then lastIdxNotNl w else some w.length
          | none => lastIdxNotNl w
        match kOpt with
        | none => none
        | some k =>
          let dollar2 := if k == w.length then nextC.getD ' ' else w.getD k ' '
          some (('*' :: body ++ ['*']) ++ '\n' :: lit "- " ++ [dollar2],
            1 + body.length + 1 + k + 1)
      | _ => none
  | _, _ => none

/-- The character class inside the bold group of lines 153, 172 and 191. -/
def inBoldClass (c : Char) : Bool :=
  isWordChar c || isJsSpace c || c == '-' || c == '&' || c == ':' ||
  c == ',' || c == '.' || c == '(' || c == ')'

/-- Scanner for the global regex of lines 153, 172 and 191: a newline,
optional whitespace, and a double-starred run of the class characters become
a newline and a level-3 heading. -/
def boldHeaderMatcher : Bool → Str → Option (Str × Nat)
  | _, '\n' :: cs =>
    let w := cs.takeWhile isJsSpace
    let r1 := cs.drop w.length
    if strStarts (lit "**") r1 then
      let r2 := r1.drop 2
      let body := r2.takeWhile inBoldClass
      if body.isEmpty then none
      else if strStarts (lit "**") (r2.drop body.length) then
        some ('\n' :: lit "### " ++ body, 1 + w.length + 2 + body.length + 2)
      else none
    else none
  | _, _ => none

/-- Literal (non-regex-metacharacter) global replace, used for the code-fence
removals of lines 200 to 202. -/
def literalMatcher (pat rep : Str) : Bool → Str → Option (Str × Nat) :=
  fun _ s =>
    if pat.isEmpty then none
    else if strStarts pat s then some (rep, pat.length) else none

/-- Replace every occurrence of a literal pattern. -/
def replaceAllStr (pat rep s : Str) : Str :=
  scanReplace (literalMatcher pat rep) s

/-- Leftmost position at which one of the alternative headers matches (the
alternation head of the section regexes of lines 142, 163 and 182). -/
def findHeaderIdx (alts : List Str) : Str → Option Nat
  | [] => none
  | c :: cs =>
    if alts.any (fun a => strStarts a (c :: cs)) then some 0
    else (findHeaderIdx alts cs).map (· + 1)

/-- Length of the alternative that matches at this position (alternatives are
tried in order, as in the regex). -/
def headerLenAt (alts : List Str) (s : Str) : Nat :=
  match alts.find? (fun a => strStarts a s) with
  | some a => a.length
  | none => 0

/-- Length of the lazy section body: the shortest extension after the header
up to a position where two hashes follow or the string ends (the lazy
any-character star with a lookahead in the section regexes). -/
def lookaheadLen : Str → Nat
  | [] => 0
  | c :: cs => if strStarts (lit "##") (c :: cs) then 0 else 1 + lookaheadLen cs

/-- The match-transform-splice step shared by the three section passes: find
the first match of the section regex, transform the matched section when it
is nonempty, and splice it back over the (identical) first match.  JavaScript
dollar-substitution inside the computed replacement is not modelled (no
section text in this development contains a dollar sign). -/
def applySectionPass (alts : List Str) (transform : Str → Str) (s : Str) :
    Str :=
  match findHeaderIdx alts s with
  | none => s
  | some i =>
    let rest := s.drop i
    let hl := headerLenAt alts rest
    let bodyLen := lookaheadLen (rest.drop hl)
    let sec := rest.take (hl + bodyLen)
    if sec.isEmpty then s
    else s.take i ++ transform sec ++ rest.drop (hl + bodyLen)

/-- The PROJECTS section pass of lines 140 to 158. -/
def projectsPass (s : Str) : Str :=
  if strHas (lit "## PROJECTS") s || strHas (lit "# PROJECTS") s then
    applySectionPass [lit "## PROJECTS", lit "# PROJECTS"]
      (fun sec =>
        scanReplace boldHeaderMatcher
          (scanReplace starGroupMatcher
            (scanReplace newlineBulletMatcher sec))) s
  else s

/-- The WORK EXPERIENCE / PROFESSIONAL EXPERIENCE section pass of lines 161
to 177. -/
def experiencePass (s : Str) : Str :=
  if strHas (lit "## WORK EXPERIENCE") s ||
      strHas (lit "## PROFESSIONAL EXPERIENCE") s then
    applySectionPass [lit "## WORK EXPERIENCE", lit "## PROFESSIONAL EXPERIENCE"]
      (fun sec =>
        scanReplace boldHeaderMatcher
          (scanReplace newlineBulletMatcher sec)) s
  else s

/-- The EDUCATION section pass of lines 180 to 196. -/
def educationPass (s : Str) : Str :=
  if strHas (lit "## EDUCATION") s then
    applySectionPass [lit "## EDUCATION"]
      (fun sec =>
        scanReplace boldHeaderMatcher
          (scanReplace newlineBulletMatcher sec)) s
  else s

/-- The explanatory-preamble markers of lines 206 to 212. -/
def explanationMarkers : List Str :=
  [lit "### Changes Made:", lit "Changes Made:", lit "Here's the formatted",
   lit "I've formatted", lit "Here is the formatted"]

/-- The marker-truncation loop of lines 214 to 219: each marker found at a
positive index truncates the content before it (a marker at index zero is
kept, as in the source). -/
def truncateAtMarkers (ms : List Str) (s : Str) : Str :=
  ms.foldl
    (fun acc m =>
      match strIndexOf m acc with
      | some i => if 0 < i then jsTrim (acc.take i) else acc
      | none => acc) s

/-- The full response-cleanup pipeline applied to the model's reply: the
bullet chain (129 to 137), the three section passes (140 to 196), the
code-fence removals and trim (199 to 203), and the explanation-marker
truncation (206 to 219). -/
def formatCleanup (raw : Str) : Str :=
  truncateAtMarkers explanationMarkers
    (jsTrim
      (replaceAllStr (lit "```") []
        (replaceAllStr (lit "```markdown") []
          (replaceAllStr (lit "```html") []
            (educationPass (experiencePass (projectsPass (bulletPass raw))))))))

/-- The final bullet cleanup of lines 247 to 250. -/
def nPlusBulletMatcher : Bool → Str → Option (Str × Nat)
  | _, '\n' :: cs =>
    let w := ('\n' :: cs).takeWhile isJsSpace
    match ('\n' :: cs).drop w.length with
    | '•' :: ds =>
      some (lit "\n- ", w.length + 1 + (ds.takeWhile isJsSpace).length)
    | _ => none
  | _, _ => none

/-- The final cleanup chain of lines 247 to 250, in source order. -/
def finalBulletCleanup (s : Str) : Str :=
  scanReplace nPlusBulletMatcher
    (scanReplace glyphMatcher
      (scanReplace bulletDotMatcher s))

/-- Lines 20 to 22: strip one trailing processed marker (the JavaScript
replace removes the first occurrence only). -/
def cleanContent (resumeContent : Str) : Str :=
  if strEnds formattedMarker resumeContent then
    replaceFirstStr formattedMarker [] resumeContent
  else resumeContent

/-- Lines 32 to 39: what would be sent upstream.  This value feeds the prompt
only; it is kept for reference and is not on the output path. -/
def truncatedContent (clean : Str) : Str :=
  let isHtml := strHas (lit "<") clean && strHas (lit ">") clean
  if MAX_CONTENT_LENGTH < clean.length then
    clean.take MAX_CONTENT_LENGTH ++ (if isHtml then lit " ..." else lit "...")
  else clean

/-- fixResumeFormatting (resumeFormatter.ts lines 9 to 259).  The outcome of
the transport call of line 117 is the parameter: an Except.error value is a
thrown error caught by the catch of line 254. -/
def fixResumeFormatting (resumeContent : Str)
    (api : Except PplxError Str) : Str :=
  if jsTrim resumeContent = [] then []
  else
    let clean := cleanContent resumeContent
    match api with
    | .error _ => clean ++ formattedMarker
    | .ok raw =>
      let formatted := formatCleanup raw
      if jsTrim formatted = [] then clean ++ formattedMarker
      else
        let finalContent :=
          if MAX_CONTENT_LENGTH < clean.length ∧ 0 < formatted.length then
            formatted ++ clean.drop MAX_CONTENT_LENGTH
          else formatted
        finalBulletCleanup finalContent ++ formattedMarker

/-- A concrete over-cap input used by the theorems below: 6001 identical
letters, one character past the cap. -/
def c6Input : Str := List.replicate 6001 'a'

end Moonstone.ResumeFormatter

namespace Moonstone.PplxApiLegacy

open Moonstone.PplxApi
open Moonstone.ResumeFormatter (formattedMarker)

/-!
The earlier single-module variant of the formatter, fixResumeFormatting from
the unnamed module part_003 (lines 200 to 346): it has a skip-if-marked fast
path, treats a missing credential as a soft failure, sends one axios POST
with no retry, and uses a 3000-character cap.  The result is paired with the
number of upstream requests issued, so the fast path's promise not to re-send
content is visible in the model.
-/

/-- The input cap of this variant (line 274). -/
def MAX_CONTENT_LENGTH : Nat := 3000

/-- The explanatory-preamble markers of this variant (lines 303 to 308). -/
def explanationMarkers : List Str :=
  [lit "### Changes Made:", lit "Changes Made:", lit "Here's the formatted",
   lit "I've formatted"]

/-- The response cleanup of this variant (lines 297 to 316): remove html and
generic code fences, trim, then truncate at explanation markers found at a
positive index. -/
def formatCleanup (raw : Str) : Str :=
  Moonstone.ResumeFormatter.truncateAtMarkers explanationMarkers
    (jsTrim
      (Moonstone.ResumeFormatter.replaceAllStr (lit "```") []
        (Moonstone.ResumeFormatter.replaceAllStr (lit "```html") [] raw)))

/-- fixResumeFormatting of part_003 (lines 200 to 346).  The axios outcome is
the parameter; the second component counts upstream requests.  Content that
already ends with the processed marker is returned unchanged with no request
(lines 209 to 212); a missing credential returns the content with the marker
appended, again with no request (lines 218 to 224). -/
def fixResumeFormatting (resumeContent : Str) (apiKey : Option Str)
    (api : Except PplxFailure Str) : Str × Nat :=
  if jsTrim resumeContent = [] then ([], 0)
  else if strEnds formattedMarker resumeContent then (resumeContent, 0)
  else
    match apiKey with
    | none => (resumeContent ++ formattedMarker, 0)
    | some _ =>
      match api with
      | .error _ => (resumeContent ++ formattedMarker, 1)
      | .ok raw =>
        let formatted := formatCleanup raw
        if jsTrim formatted = [] then (resumeContent ++ formattedMarker, 1)
        else
          let finalContent :=
            if MAX_CONTENT_LENGTH < resumeContent.length ∧
                0 < formatted.length then
              formatted ++ resumeContent.drop MAX_CONTENT_LENGTH
            else formatted
          (finalContent ++ formattedMarker, 1)

end Moonstone.PplxApiLegacy

namespace Moonstone.KeywordExtractor

open Moonstone.PplxApi

/-!
Response Parser/Repair and Keyword Enrichment:
src/src/utils/keywordExtractor.ts.  JSON.parse is an external browser
builtin: it appears as a parameter jsonParse returning some items exactly
when the parse succeeds AND Array.isArray holds of the value (both a thrown
SyntaxError and a successful parse of a non-array make the code fall through
to the next stage, so they are one outcome here).  The reference instance
jsonParseSimple below implements arrays of plain strings and agrees with
JSON.parse on every concrete input used by the theorems.
-/

/-- A JavaScript value inside a parsed array, as far as
validateAndEnrichKeywords distinguishes them: a string, a number, or
anything else (dropped by the typeof filter of line 51).  Numbers are
restricted to integers; no input in this development contains one. -/
inductive JsVal where
  | str (s : Str) : JsVal
  | num (n : Int) : JsVal
  | other : JsVal
deriving DecidableEq, Repr

/-- The typeof filter of line 51. -/
def isStrOrNum : JsVal → Bool
  | .str _ => true
  | .num _ => true
  | .other => false

/-- Decimal rendering of a natural number, for the String() coercion. -/
def natToStr (n : Nat) : Str := Nat.toDigits 10 n

/-- The String() coercion of line 52, on the values the filter lets
through. -/
def jsValToString : JsVal → Str
  | .str s => s
  | .num n => if n < 0 then '-' :: natToStr n.natAbs else natToStr n.toNat
  | .other => []

/-- The validKeywords computation of lines 50 to 53: keep strings and
numbers, coerce to string and trim, drop empties. -/
def validKeywords (keywords : List JsVal) : List Str :=
  ((keywords.filter isStrOrNum).map (fun k => jsTrim (jsValToString k))).filter
    (fun k => !k.isEmpty)

/-- The importantTerms table of lines 56 to 91.  Each entry is the literal
text of the regex pattern (whose escapes all denote literal characters) and
the sanitized spelling pushed into the result; in this table the two
coincide. -/
def importantTerms : List (Str × Str) :=
  [(lit "C++", lit "C++"), (lit "C#", lit "C#"), (lit "Python", lit "Python"),
   (lit "Java", lit "Java"), (lit "Go", lit "Go"),
   (lit "JavaScript", lit "JavaScript"),
   (lit "TypeScript", lit "TypeScript"), (lit "Node.js", lit "Node.js"),
   (lit "SQL", lit "SQL"), (lit "SKLearn", lit "SKLearn"),
   (lit "XGBoost", lit "XGBoost"), (lit "PyTorch", lit "PyTorch"),
   (lit "Tensorflow", lit "Tensorflow"), (lit "React", lit "React"),
   (lit "Angular", lit "Angular"), (lit "Kubernetes", lit "Kubernetes"),
   (lit "K8s", lit "K8s"), (lit "Docker", lit "Docker"),
   (lit "CI/CD", lit "CI/CD"), (lit "Jenkins", lit "Jenkins"),
   (lit "GitLab", lit "GitLab"), (lit "GitHub", lit "GitHub"),
   (lit "GitHub Actions", lit "GitHub Actions"), (lit "ML/AI", lit "ML/AI"),
   (lit "Machine Learning", lit "Machine Learning"),
   (lit "Artificial Intelligence", lit "Artificial Intelligence"),
   (lit "E2E", lit "E2E"), (lit "APIs", lit "APIs"), (lit "Cloud", lit "Cloud"),
   (lit "Snowflake", lit "Snowflake")]

/-- Case-insensitive literal match at the head of the string. -/
def matchesCIAt : Str → Str → Bool
  | [], _ => true
  | _ :: _, [] => false
  | p :: ps, c :: cs => (p.toLower == c.toLower) && matchesCIAt ps cs

/-- Word-character test of an optional character (outside the string counts
as a non-word position for the boundary assertion). -/
def optIsWord : Option Char → Bool
  | none => false
  | some c => isWordChar c

/-- The boundary assertion after the matched text: the last matched
character and the following character differ in word-ness. -/
def endBoundaryOk (pat s : Str) : Bool :=
  match (s.take pat.length).getLast? with
  | none => false
  | some lastC => isWordChar lastC != optIsWord (s.drop pat.length).head?

/-- Scan for a case-insensitive whole-word occurrence: the model of the
RegExp word-boundary test built at line 107 (and line 386) from a literal
term.  prev is the character before the current position. -/
def wbTestGo (pat : Str) : Option Char → Str → Bool
  | _, [] => false
  | prev, c :: cs =>
    (matchesCIAt pat (c :: cs) && (optIsWord prev != isWordChar c) &&
      endBoundaryOk pat (c :: cs)) ||
    wbTestGo pat (some c) cs

/-- Case-insensitive whole-word regex test of a literal term. -/
def wbTestCI (pat s : Str) : Bool := wbTestGo pat none s

/-- The body of the forEach of lines 100 to 122, one table entry at a time
with the push-accumulated missing list made explicit: a term whose sanitized
spelling is already present (case-insensitively) is skipped; a term found in
the job description (by substring or whole-word test) or, failing that, in
the raw response (whole-word test) is appended. -/
def missingTermsGo (valid : List Str) (rawResponse jd : Str) :
    List (Str × Str) → List Str → List Str
  | [], acc => acc
  | tp :: rest, acc =>
    if (valid.map strLower).contains (strLower tp.2) then
      missingTermsGo valid rawResponse jd rest acc
    else if strHas tp.2 jd || wbTestCI tp.1 jd then
      missingTermsGo valid rawResponse jd rest (acc ++ [tp.2])
    else if wbTestCI tp.1 rawResponse then
      missingTermsGo valid rawResponse jd rest (acc ++ [tp.2])
    else missingTermsGo valid rawResponse jd rest acc

/-- The enrichment loop of lines 98 to 122 over the whole term table. -/
def missingTermsFold (valid : List Str) (rawResponse jd : Str) : List Str :=
  missingTermsGo valid rawResponse jd importantTerms []

/-- The direct text-search fallbacks of lines 124 to 141, applied after the
table walk. -/
def missingTerms (valid : List Str) (rawResponse jd : Str) : List Str :=
  let keywordSet := valid.map strLower
  let ms0 := missingTermsFold valid rawResponse jd
  let ms1 :=
    if !keywordSet.contains (lit "c++") && !ms0.contains (lit "C++") &&
        (strHas (lit "C++") jd || strHas (lit "c++") jd) then
      ms0 ++ [lit "C++"]
    else ms0
  let ms2 :=
    if !keywordSet.contains (lit "python") && !ms1.contains (lit "Python") &&
        strHas (lit "python") (strLower jd) then
      ms1 ++ [lit "Python"]
    else ms1
  if !keywordSet.contains (lit "java") && !ms2.contains (lit "Java") &&
      strHas (lit "java ") (strLower jd) then
    ms2 ++ [lit "Java"]
  else ms2

/-- The concatenation of line 144. -/
def enrichedKeywords (keywords : List JsVal) (rawResponse jd : Str) :
    List Str :=
  validKeywords keywords ++
    missingTerms (validKeywords keywords) rawResponse jd

/-- The case-insensitive first-occurrence de-duplication of lines 147 to
155, with the seen set made explicit. -/
def dedupCI (seen : List Str) : List Str → List Str
  | [] => []
  | k :: ks =>
    if seen.contains (strLower k) then dedupCI seen ks
    else k :: dedupCI (strLower k :: seen) ks

/-- validateAndEnrichKeywords (lines 38 to 164).  The input here is already a
list, so the non-array early return of line 43 has no counterpart. -/
def validateAndEnrichKeywords (keywords : List JsVal) (rawResponse jd : Str) :
    List Str :=
  dedupCI [] (enrichedKeywords keywords rawResponse jd)

/-- isApiValidationJob (lines 170 to 178). -/
def isApiValidationJob (jd : Str) : Bool :=
  let cleaned := strLower (jsTrim jd)
  decide (cleaned.length < 50) &&
    (strHas (lit "software engineer") cleaned || strHas (lit "react") cleaned ||
      strHas (lit "javascript") cleaned)

/-- Scanner for the whitespace-run collapse of line 26. -/
def wsRunMatcher : Bool → Str → Option (Str × Nat) :=
  fun _ s =>
    if isJsSpace (s.headD 'x') then
      some ([' '], (s.takeWhile isJsSpace).length)
    else none

/-- createCacheKey (lines 23 to 29): first 50 trimmed characters with
whitespace runs collapsed, an underscore, and the untrimmed length. -/
def createCacheKey (jd : Str) : Str :=
  scanReplace wsRunMatcher ((jsTrim jd).take 50) ++ '_' :: natToStr jd.length

/-- Scanner for the code-fence alternation of line 309 (json fence or bare
fence, removed globally). -/
def fenceJsonMatcher : Bool → Str → Option (Str × Nat) :=
  fun _ s =>
    if strStarts (lit "```json") s then some ([], 7)
    else if strStarts (lit "```") s then some ([], 3)
    else none

/-- Parsing stage one (lines 308 to 322): strip fences, trim, and hand to
JSON.parse; succeeds when an array comes back. -/
def stage1 (jsonParse : Str → Option (List JsVal)) (result : Str) :
    Option (List JsVal) :=
  jsonParse (jsTrim (scanReplace fenceJsonMatcher result))

/-- The lazy bracket regex of line 325: the first opening bracket and the
nearest closing bracket after it. -/
def firstBracketed (s : Str) : Option Str :=
  match s.dropWhile (fun c => !(c == '[')) with
  | [] => none
  | _ :: rest =>
    if rest.any (fun c => c == ']') then
      some ('[' :: rest.takeWhile (fun c => !(c == ']')) ++ [']'])
    else none

/-- Parsing stage two (lines 325 to 343): extract the first bracketed
substring and hand it to JSON.parse. -/
def stage2 (jsonParse : Str → Option (List JsVal)) (result : Str) :
    Option (List JsVal) :=
  (firstBracketed result).bind jsonParse

/-- String.prototype.split on a comma. -/
def splitOnComma : Str → List Str
  | [] => [[]]
  | c :: cs =>
    if c == ',' then [] :: splitOnComma cs
    else
      match splitOnComma cs with
      | t :: ts => (c :: t) :: ts
      | [] => [[c]]

/-- The bracket-quote-backtick character class removed at line 349. -/
def isBracketQuote (c : Char) : Bool :=
  c == '[' || c == ']' || c == '"' || c == '\'' || c == '`'

/-- Parsing stage three (lines 346 to 358): when the response contains a
comma, delete brackets, quotes and backticks, split on commas, trim, and
keep nonempty pieces without a fence; succeeds when pieces remain. -/
def stage3 (result : Str) : Option (List Str) :=
  if strHas (lit ",") result then
    let candidates :=
      ((splitOnComma (removeChars isBracketQuote result)).map jsTrim).filter
        (fun k => !k.isEmpty && !strHas (lit "```") k)
    if !candidates.isEmpty then some candidates else none
  else none

/-- Scanner for the quoted-phrase alternation of line 361: a double-quoted
or single-quoted run. -/
def quoteMatcher : Str → Option (Str × Nat)
  | '"' :: cs =>
    let body := cs.takeWhile (fun c => !(c == '"'))
    match cs.drop body.length with
    | '"' :: _ => some ('"' :: body ++ ['"'], body.length + 2)
    | _ => none
  | '\'' :: cs =>
    let body := cs.takeWhile (fun c => !(c == '\''))
    match cs.drop body.length with
    | '\'' :: _ => some ('\'' :: body ++ ['\''], body.length + 2)
    | _ => none
  | _ => none

/-- Parsing stage four (lines 361 to 368): when any quoted phrase matches,
strip quote characters from each match and trim, keeping nonempty phrases
(the stage fires on the presence of matches, before that filtering). -/
def stage4 (result : Str) : Option (List Str) :=
  let phrases := scanMatches quoteMatcher result
  if !phrases.isEmpty then
    some ((phrases.map
      (fun p => jsTrim (removeChars (fun c => c == '"' || c == '\'') p))).filter
        (fun p => !p.isEmpty))
  else none

/-- The technicalTerms table of the manual fallback (lines 377 to 382).
Unlike the importantTerms table of the enrichment loop, these terms are NOT
regex-escaped: line 386 only escapes slashes before handing the term to the
RegExp constructor. -/
def technicalTerms : List Str :=
  [lit "Python", lit "C++", lit "Java", lit "Go", lit "JavaScript",
   lit "TypeScript", lit "Kubernetes", lit "K8s", lit "Docker", lit "CI/CD",
   lit "Jenkins", lit "GitLab", lit "GitHub Actions", lit "SKLearn",
   lit "XGBoost", lit "PyTorch", lit "Tensorflow", lit "Machine Learning",
   lit "ML/AI", lit "E2E", lit "APIs", lit "Cloud", lit "Data",
   lit "Infrastructure", lit "Snowflake"]

/-- Regex quantifier characters. -/
def quantChar (c : Char) : Bool := c == '+' || c == '*' || c == '?'

/-- Compilation scan for the model of the RegExp constructor below: the flag
records whether the previous position holds a quantifiable atom.  A
quantifier with no atom to repeat — at the start of the term (which follows
the non-quantifiable word-boundary assertion) or directly after another
quantifier — is a SyntaxError. -/
def regexTermCompilesGo : Bool → Str → Bool
  | _, [] => true
  | prevAtom, c :: cs =>
    if quantChar c then
      if prevAtom then regexTermCompilesGo false cs else false
    else regexTermCompilesGo true cs

/-- Model of the RegExp constructor on the word-boundary patterns the manual
fallback builds at line 386: the term (with only slashes escaped, which
leaves every character here an ordinary atom) is wrapped in word-boundary
assertions, and construction throws a SyntaxError exactly when a quantifier
character has nothing to repeat.  Within this table that happens for the
unescaped C++ term, whose second plus sign follows the quantifier made of
the first. -/
def regexTermCompiles (t : Str) : Bool := regexTermCompilesGo false t

/-- The manual-fallback loop of lines 384 to 390, one term at a time with
the push-accumulated matches made explicit: each iteration first constructs
the RegExp — which may throw — and then tests it against the original job
description; a thrown SyntaxError aborts the loop and propagates. -/
def jobMatchesGo (jd : Str) : List Str → List Str → Except Unit (List Str)
  | [], acc => .ok acc
  | t :: ts, acc =>
    if regexTermCompiles t then
      if wbTestCI t jd then jobMatchesGo jd ts (acc ++ [t])
      else jobMatchesGo jd ts acc
    else .error ()

/-- The manual fallback of lines 370 to 395 over the whole term table: its
matches, or the SyntaxError thrown while building the regex for a term. -/
def jobMatchesResult (jd : Str) : Except Unit (List Str) :=
  jobMatchesGo jd technicalTerms []

/-- The parsing cascade of lines 305 to 398, stages tried in order, first
success wins; stages one to four feed validateAndEnrichKeywords; the manual
fallback's matches are returned as is when nonempty, and the empty list is
the final answer both when the fallback finds nothing and when the fallback
throws (the SyntaxError from the unescaped C++ regex is caught by the catch
of line 399, which returns the empty list). -/
def extractFromResult (jsonParse : Str → Option (List JsVal))
    (result jd : Str) : List Str :=
  match stage1 jsonParse result with
  | some arr => validateAndEnrichKeywords arr result jd
  | none =>
    match stage2 jsonParse result with
    | some arr => validateAndEnrichKeywords arr result jd
    | none =>
      match stage3 result with
      | some ks => validateAndEnrichKeywords (ks.map .str) result jd
      | none =>
        match stage4 result with
        | some ps => validateAndEnrichKeywords (ps.map .str) result jd
        | none =>
          match jobMatchesResult jd with
          | .error _ => []
          | .ok ms => if !ms.isEmpty then ms else []

/-- The keep-class of the input cleaning at line 238 (the source removes the
complement of word characters, whitespace and the listed punctuation). -/
def jdKeepChar (c : Char) : Bool :=
  isWordChar c || isJsSpace c || c == ',' || c == '.' || c == ';' ||
  c == ':' || c == '\'' || c == '"' || c == '!' || c == '?' || c == '(' ||
  c == ')' || c == '-'

/-- The cleaned job description of lines 237 to 239. -/
def cleanJobDescription (jd : Str) : Str :=
  jsTrim (jd.filter jdKeepChar)

/-- extractKeywordsWithPplx (lines 185 to 411) for one fresh call: the cache
and pending-set coordination of lines 204 to 233 is modelled separately by
the event-loop semantics in namespace SingleRun; here the call reaches the
transport (whose outcome is the api parameter) unless a guard path returns
first.  The function is total: the transport error is caught at line 404 and
every parse failure falls through, so no path throws. -/
def extractKeywordsWithPplx (jsonParse : Str → Option (List JsVal))
    (apiValidated : Bool) (jobDescription : Str)
    (api : Except PplxError Str) : List Str :=
  if jsTrim jobDescription = [] then []
  else if isApiValidationJob jobDescription && apiValidated then
    [lit "Software Engineer", lit "React", lit "JavaScript"]
  else if (cleanJobDescription jobDescription).length < 20 then []
  else
    match api with
    | .error _ => []
    | .ok result =>
      if jsTrim result = [] then []
      else extractFromResult jsonParse result jobDescription

/-- Whitespace as JSON.parse skips it. -/
def jsonWs (c : Char) : Bool :=
  c == ' ' || c == '\t' || c == '\n' || c == '\r'

/-- Fuel-driven item loop of the reference JSON parser: parses the remainder
of a bracketed list of plain double-quoted strings (no escapes), expecting
either a closing bracket or a string at the current position. -/
def jsonItemsGo : Nat → Str → Option (List JsVal)
  | 0, _ => none
  | fuel + 1, s =>
    match s with
    | ']' :: rest => if (rest.dropWhile jsonWs).isEmpty then some [] else none
    | '"' :: rest =>
      let body := rest.takeWhile (fun c => !(c == '"') && !(c == '\\'))
      match rest.drop body.length with
      | '"' :: rest2 =>
        (match rest2.dropWhile jsonWs with
          | ',' :: rest3 =>
            (jsonItemsGo fuel (rest3.dropWhile jsonWs)).map
              (fun l => .str body :: l)
          | ']' :: rest3 =>
            if (rest3.dropWhile jsonWs).isEmpty then some [.str body]
            else none
          | _ => none)
      | _ => none
    | _ => none

/-- Reference model of the external JSON.parse for the concrete inputs of
this development: it accepts exactly a whitespace-padded array of plain
double-quoted strings and yields its items; every other input (including
valid JSON that is not an array, which the source also rejects through its
Array.isArray guard) yields none. -/
def jsonParseSimple (s : Str) : Option (List JsVal) :=
  match s.dropWhile jsonWs with
  | '[' :: rest => jsonItemsGo (s.length + 1) (rest.dropWhile jsonWs)
  | _ => none

end Moonstone.KeywordExtractor

namespace Moonstone.KeywordMatchVisualizer

open Moonstone.PplxApi

/-!
The UI consumer: extractKeywordsLocally and the decision flow of getKeywords
from src/src/components/KeywordMatchVisualizer.tsx.  React state setters,
the debounce, the duplicate-job fingerprint skip and the resume-match
highlighting are display machinery with no bearing on which keyword list the
component adopts; the decision flow itself is modelled.
-/

/-- The stop-word set of lines 219 to 223. -/
def commonWords : List Str :=
  [lit "the", lit "and", lit "to", lit "of", lit "a", lit "in", lit "for",
   lit "is", lit "on", lit "that", lit "by", lit "this", lit "with", lit "i",
   lit "you", lit "it", lit "not", lit "or", lit "be", lit "are", lit "from",
   lit "at", lit "as", lit "your", lit "have", lit "more", lit "an",
   lit "was", lit "we", lit "will", lit "can", lit "all", lit "has"]

/-- Scanner for the HTML-tag regex of line 213: an angle-bracketed run with
no closing bracket inside, removed globally. -/
def htmlTagMatcher : Bool → Str → Option (Str × Nat)
  | _, '<' :: cs =>
    let body := cs.takeWhile (fun c => !(c == '>'))
    match cs.drop body.length with
    | '>' :: _ => some ([], body.length + 2)
    | _ => none
  | _, _ => none

/-- String.prototype.split on the whitespace-run regex of line 216,
JavaScript semantics included: leading or trailing separators contribute
empty pieces.  The fuel starts above the string length; every step consumes
at least one character. -/
def splitWsGo : Nat → Str → List Str
  | 0, _ => []
  | fuel + 1, s =>
    let t := s.takeWhile (fun c => !(isJsSpace c))
    match s.drop t.length with
    | [] => [t]
    | _ :: rs => t :: splitWsGo fuel (rs.dropWhile isJsSpace)

/-- Split on whitespace runs. -/
def splitWs (s : Str) : List Str := splitWsGo (s.length + 1) s

/-- Exact first-occurrence de-duplication (the Set construction of line
227). -/
def dedupFirst (seen : List Str) : List Str → List Str
  | [] => []
  | k :: ks =>
    if seen.contains k then dedupFirst seen ks
    else k :: dedupFirst (k :: seen) ks

/-- extractKeywordsLocally (lines 211 to 232): strip HTML tags, lowercase,
split on whitespace, strip non-word characters from each piece, keep pieces
longer than three characters that are not stop words, de-duplicate keeping
first occurrences, and cap at twenty. -/
def extractKeywordsLocally (text : Str) : List Str :=
  let plainText := scanReplace htmlTagMatcher text
  let words := splitWs (strLower plainText)
  let kept :=
    (words.map (removeChars (fun c => !(isWordChar c)))).filter
      (fun w => decide (3 < w.length) && !(commonWords.contains w))
  (dedupFirst [] kept).take 20

/-- The keyword-adoption decision of getKeywords (lines 116 to 190): with
the API enabled and validated, a nonempty API keyword list is adopted
(filtered by the user's removed set); an empty API list, or a disabled or
unvalidated API, falls back to the local extractor (same filter).  The
removed set is passed explicitly; apiKeywords stands for the resolved value
of the extractKeywordsWithPplx call of line 130, which never rejects. -/
def getKeywordsResult (useApiKeywords validated : Bool)
    (apiKeywords removed : List Str) (jobDesc : Str) : List Str :=
  if useApiKeywords && validated then
    if !apiKeywords.isEmpty then
      apiKeywords.filter (fun k => !(removed.contains k))
    else
      (extractKeywordsLocally jobDesc).filter (fun k => !(removed.contains k))
  else
    (extractKeywordsLocally jobDesc).filter (fun k => !(removed.contains k))

end Moonstone.KeywordMatchVisualizer

namespace Moonstone.SingleRun

/-!
The pending-set / cache orchestration of extractKeywordsWithPplx (lines 204
to 233, 290 to 303 and 407 to 410), given a cooperative event-loop
semantics.  One fingerprint is in play.  A tick is one 500 ms poll interval;
the transport (together with parsing) takes d ticks and then yields the
keyword list kw when it succeeds; on failure the extraction resolves with
the empty list and caches nothing, but the finally of line 407 still clears
the pending entry.  Within a tick the callers run in list order, which
realises the single-threaded event loop: the first caller's synchronous
portion (pending check, pending add, request dispatch) runs before a
concurrent caller's check.  Cache entries are fresh in this model: the
scenario spans seconds and the TTL is one hour.
-/

/-- The control state of one caller of extractKeywordsWithPplx. -/
inductive CallerSt where
  | startSt : CallerSt
  | polling (attemptsLeft : Nat) : CallerSt
  | awaitTransport (ticksLeft : Nat) : CallerSt
  | doneSt (res : List Str) : CallerSt
deriving DecidableEq, Repr

/-- The process-wide shared state: pending-set membership of the fingerprint,
the cache entry, and the number of transport invocations so far. -/
structure SysSt where
  pending : Bool
  cache : Option (List Str)
  calls : Nat
deriving DecidableEq, Repr

/-- Fresh shared state. -/
def initSys : SysSt := { pending := false, cache := none, calls := 0 }

/-- Shared state once the first caller has marked the fingerprint pending and
dispatched its request. -/
def midSys : SysSt := { pending := true, cache := none, calls := 1 }

/-- Shared state once the one request has completed successfully: entry
cached, pending cleared, one transport invocation in total. -/
def endSys (kw : List Str) : SysSt :=
  { pending := false, cache := some kw, calls := 1 }

/-- Lines 232 to 280: add the fingerprint to the pending set and dispatch
the transport request. -/
def startCall (d : Nat) (g : SysSt) : CallerSt × SysSt :=
  (.awaitTransport d, { g with pending := true, calls := g.calls + 1 })

/-- Lines 217 to 233: after leaving the poll loop, a cache entry is adopted
(no TTL check on this path); otherwise the caller proceeds to its own
request. -/
def afterPoll (d : Nat) (g : SysSt) : CallerSt × SysSt :=
  match g.cache with
  | some ks => (.doneSt ks, g)
  | none => startCall d g

/-- One event-loop step of one caller. -/
def callerStep (d : Nat) (kw : List Str) (success : Bool) :
    CallerSt → SysSt → CallerSt × SysSt
  | .startSt, g =>
    if g.pending then (.polling 10, g)
    else
      match g.cache with
      | some ks => (.doneSt ks, g)
      | none => startCall d g
  | .polling (n + 1), g => if g.pending then (.polling n, g) else afterPoll d g
  | .polling 0, g => afterPoll d g
  | .awaitTransport (t + 1), g => (.awaitTransport t, g)
  | .awaitTransport 0, g =>
    if success then
      (.doneSt kw, { pending := false, cache := some kw, calls := g.calls })
    else (.doneSt [], { pending := false, cache := g.cache, calls := g.calls })
  | .doneSt r, g => (.doneSt r, g)

/-- One tick: every caller steps once, in list order, through the shared
state. -/
def tickAll (d : Nat) (kw : List Str) (success : Bool) :
    List CallerSt → SysSt → List CallerSt × SysSt
  | [], g => ([], g)
  | c :: cs, g =>
    let p := callerStep d kw success c g
    let q := tickAll d kw success cs p.2
    (p.1 :: q.1, q.2)

/-- Run n ticks from a configuration. -/
def runSys (d : Nat) (kw : List Str) (success : Bool) :
    Nat → List CallerSt × SysSt → List CallerSt × SysSt
  | 0, st => st
  | n + 1, st =>
    let st1 := runSys d kw success n st
    tickAll d kw success st1.1 st1.2

end Moonstone.SingleRun

/-! ## Theorems -/

namespace Moonstone

theorem strStarts_self (s : Str) : strStarts s s = true := by
  induction s with
  | nil => rfl
  | cons c cs ih => simp [strStarts, ih]

theorem strEnds_append (pat x : Str) : strEnds pat (x ++ pat) = true := by
  unfold strEnds
  have h : (x ++ pat).length - pat.length = x.length := by
    simp
  rw [h, List.drop_left]
  exact strStarts_self pat

theorem dropWhile_replicate_false {p : Char → Bool} {a : Char}
    (h : p a = false) (n : Nat) :
    (List.replicate n a).dropWhile p = List.replicate n a := by
  cases n with
  | zero => rfl
  | succ n => rw [List.replicate_succ, List.dropWhile_cons, h]; simp

theorem jsTrim_replicate {a : Char} (h : isJsSpace a = false) (n : Nat) :
    jsTrim (List.replicate n a) = List.replicate n a := by
  unfold jsTrim
  rw [dropWhile_replicate_false h, List.reverse_replicate,
    dropWhile_replicate_false h, List.reverse_replicate]

end Moonstone

namespace Moonstone.PplxApi

/-- The retry loop, when attempts idx to idx+n-1 time out and attempt idx+n
succeeds within the retry budget, returns that success after n delays of
2000 ms. -/
theorem pplxRetryLoop_ok (n : Nat) :
    ∀ (remaining idx : Nat) (attempt : Nat → PplxAttempt) (s : Str),
      n ≤ remaining →
      (∀ i, i < n → attempt (idx + i) = .err .timeoutFail) →
      attempt (idx + n) = .ok s →
      pplxRetryLoop attempt idx remaining =
        { result := .ok s, attemptsMade := n + 1,
          delaysMs := List.replicate n 2000 } := by
  induction n with
  | zero =>
    intro remaining idx attempt s _ _ hok
    rw [show idx + 0 = idx from rfl] at hok
    cases remaining <;> simp [pplxRetryLoop, hok]
  | succ n ih =>
    intro remaining idx attempt s hle hto hok
    obtain ⟨r, rfl⟩ : ∃ r, remaining = r + 1 :=
      ⟨remaining - 1, by omega⟩
    have h0 : attempt idx = .err .timeoutFail := by
      have := hto 0 (Nat.succ_pos n)
      simpa using this
    have hrest := ih r (idx + 1) attempt s (by omega)
      (fun i hi => by
        have := hto (i + 1) (by omega)
        simpa [Nat.add_assoc, Nat.add_comm 1 i] using this)
      (by
        have : idx + 1 + n = idx + (n + 1) := by omega
        rw [this]; exact hok)
    simp [pplxRetryLoop, h0, hrest, List.replicate_succ]

/-- The retry loop, when attempts idx to idx+n-1 time out and attempt idx+n
fails with a non-timeout error within the retry budget, throws that error
immediately after n delays, making no further attempts. -/
theorem pplxRetryLoop_http (n : Nat) :
    ∀ (remaining idx : Nat) (attempt : Nat → PplxAttempt)
      (st : Option Nat) (body : Str),
      n ≤ remaining →
      (∀ i, i < n → attempt (idx + i) = .err .timeoutFail) →
      attempt (idx + n) = .err (.httpFail st body) →
      pplxRetryLoop attempt idx remaining =
        { result := .error (.upstream (.httpFail st body)),
          attemptsMade := n + 1,
          delaysMs := List.replicate n 2000 } := by
  induction n with
  | zero =>
    intro remaining idx attempt st body _ _ herr
    rw [show idx + 0 = idx from rfl] at herr
    cases remaining <;> simp [pplxRetryLoop, herr]
  | succ n ih =>
    intro remaining idx attempt st body hle hto herr
    obtain ⟨r, rfl⟩ : ∃ r, remaining = r + 1 :=
      ⟨remaining - 1, by omega⟩
    have h0 : attempt idx = .err .timeoutFail := by
      have := hto 0 (Nat.succ_pos n)
      simpa using this
    have hrest := ih r (idx + 1) attempt st body (by omega)
      (fun i hi => by
        have := hto (i + 1) (by omega)
        simpa [Nat.add_assoc, Nat.add_comm 1 i] using this)
      (by
        have : idx + 1 + n = idx + (n + 1) := by omega
        rw [this]; exact herr)
    simp [pplxRetryLoop, h0, hrest, List.replicate_succ]

/-- The retry loop, when every attempt within the budget times out, throws
the timeout error of the last attempt after using the whole budget. -/
theorem pplxRetryLoop_allTimeout :
    ∀ (remaining idx : Nat) (attempt : Nat → PplxAttempt),
      (∀ i, i ≤ remaining → attempt (idx + i) = .err .timeoutFail) →
      pplxRetryLoop attempt idx remaining =
        { result := .error (.upstream .timeoutFail),
          attemptsMade := remaining + 1,
          delaysMs := List.replicate remaining 2000 } := by
  intro remaining
  induction remaining with
  | zero =>
    intro idx attempt hto
    have h0 : attempt idx = .err .timeoutFail := by
      have := hto 0 (Nat.le_refl 0)
      simpa using this
    simp [pplxRetryLoop, h0]
  | succ r ih =>
    intro idx attempt hto
    have h0 : attempt idx = .err .timeoutFail := by
      have := hto 0 (Nat.zero_le _)
      simpa using this
    have hrest := ih (idx + 1) attempt
      (fun i hi => by
        have := hto (i + 1) (by omega)
        simpa [Nat.add_assoc, Nat.add_comm 1 i] using this)
    simp [pplxRetryLoop, h0, hrest, List.replicate_succ]

/-- C3: with a configured credential, callPplxApi retries a timed-out attempt
up to retries additional times (retries defaults to 2) with a fixed 2000 ms
delay between attempts; a success within the budget is returned; a
non-timeout failure is thrown at once with no further attempts, carrying the
upstream status and response body; when every attempt within the budget times
out, the last (timeout) error is thrown after retries+1 attempts. -/
theorem callPplxApi_retry_contract :
    (∀ (key : Str) (retriesOpt : Option Nat) (attempt : Nat → PplxAttempt)
       (n : Nat) (s : Str),
        n ≤ jsOrDefault retriesOpt 2 →
        (∀ i, i < n → attempt i = .err .timeoutFail) →
        attempt n = .ok s →
        callPplxApi (some key) retriesOpt attempt =
          { result := .ok s, attemptsMade := n + 1,
            delaysMs := List.replicate n 2000 })
    ∧ (∀ (key : Str) (retriesOpt : Option Nat) (attempt : Nat → PplxAttempt)
         (n : Nat) (st : Option Nat) (body : Str),
          n ≤ jsOrDefault retriesOpt 2 →
          (∀ i, i < n → attempt i = .err .timeoutFail) →
          attempt n = .err (.httpFail st body) →
          callPplxApi (some key) retriesOpt attempt =
            { result := .error (.upstream (.httpFail st body)),
              attemptsMade := n + 1,
              delaysMs := List.replicate n 2000 })
    ∧ (∀ (key : Str) (retriesOpt : Option Nat) (attempt : Nat → PplxAttempt),
          (∀ i, i ≤ jsOrDefault retriesOpt 2 →
            attempt i = .err .timeoutFail) →
          callPplxApi (some key) retriesOpt attempt =
            { result := .error (.upstream .timeoutFail),
              attemptsMade := jsOrDefault retriesOpt 2 + 1,
              delaysMs := List.replicate (jsOrDefault retriesOpt 2) 2000 })
    ∧ jsOrDefault none 2 = 2 := by
  refine ⟨?_, ?_, ?_, rfl⟩
  · intro key retriesOpt attempt n s hle hto hok
    have := pplxRetryLoop_ok n (jsOrDefault retriesOpt 2) 0 attempt s hle
      (fun i hi => by simpa using hto i hi) (by simpa using hok)
    simpa [callPplxApi] using this
  · intro key retriesOpt attempt n st body hle hto herr
    have := pplxRetryLoop_http n (jsOrDefault retriesOpt 2) 0 attempt st body
      hle (fun i hi => by simpa using hto i hi) (by simpa using herr)
    simpa [callPplxApi] using this
  · intro key retriesOpt attempt hto
    have := pplxRetryLoop_allTimeout (jsOrDefault retriesOpt 2) 0 attempt
      (fun i hi => by simpa using hto i hi)
    simpa [callPplxApi] using this

/-- Concrete run of the C3 contract: two timeouts then a success, with the
default retry budget, returns the success after three attempts and two
2-second delays. -/
theorem callPplxApi_retry_contract_witness :
    (2 ≤ jsOrDefault none 2) ∧
    callPplxApi (some (lit "key")) none
        (fun i => if i < 2 then .err .timeoutFail else .ok (lit "hi")) =
      { result := .ok (lit "hi"), attemptsMade := 3,
        delaysMs := [2000, 2000] } := by
  refine ⟨by decide, ?_⟩
  have := callPplxApi_retry_contract.1 (lit "key") none
    (fun i => if i < 2 then .err .timeoutFail else .ok (lit "hi"))
    2 (lit "hi") (by decide) (by decide) (by decide)
  simpa using this

end Moonstone.PplxApi

namespace Moonstone.ResumeFormatter

open Moonstone.PplxApi

theorem formatCleanup_ne_nil_pos {raw : Str}
    (h : jsTrim (formatCleanup raw) ≠ []) : 0 < (formatCleanup raw).length := by
  cases hfc : formatCleanup raw with
  | nil => exact absurd (by rw [hfc]; rfl) h
  | cons a l => simp

theorem fixResumeFormatting_error (content : Str) (e : PplxError)
    (h : jsTrim content ≠ []) :
    fixResumeFormatting content (.error e) =
      cleanContent content ++ formattedMarker := by
  unfold fixResumeFormatting
  rw [if_neg h]

theorem fixResumeFormatting_empty_input (content : Str)
    (api : Except PplxError Str) (h : jsTrim content = []) :
    fixResumeFormatting content api = [] := by
  unfold fixResumeFormatting
  rw [if_pos h]

theorem fixResumeFormatting_endsWith (content : Str)
    (api : Except PplxError Str) (h : jsTrim content ≠ []) :
    strEnds formattedMarker (fixResumeFormatting content api) = true := by
  cases api with
  | error e =>
    rw [fixResumeFormatting_error content e h]
    exact strEnds_append _ _
  | ok raw =>
    unfold fixResumeFormatting
    rw [if_neg h]
    by_cases h2 : jsTrim (formatCleanup raw) = []
    · simp only [h2, if_pos rfl]
      exact strEnds_append _ _
    · simp only [if_neg h2]
      exact strEnds_append _ _

/-- C10: for every transport outcome, a non-blank input yields a result
carrying the trailing processed marker (success, empty model response, and
error paths alike), while a blank input yields the empty string, which
carries no marker. -/
theorem fixResumeFormatting_marker_invariant (content : Str)
    (api : Except PplxError Str) :
    (jsTrim content ≠ [] →
      strEnds formattedMarker (fixResumeFormatting content api) = true) ∧
    (jsTrim content = [] → fixResumeFormatting content api = []) :=
  ⟨fixResumeFormatting_endsWith content api,
   fixResumeFormatting_empty_input content api⟩

/-- Concrete run of the C10 invariant: a short text through the success path
carries the marker, and a whitespace-only input returns empty. -/
theorem fixResumeFormatting_marker_invariant_witness :
    strEnds formattedMarker
      (fixResumeFormatting (lit "Hi") (.ok (lit "Nice."))) = true ∧
    fixResumeFormatting (lit " ") (.ok (lit "Nice.")) = [] :=
  ⟨(fixResumeFormatting_marker_invariant (lit "Hi") (.ok (lit "Nice."))).1
      (by decide),
   (fixResumeFormatting_marker_invariant (lit " ") (.ok (lit "Nice."))).2
      (by decide)⟩

/-- C4: a non-blank input whose transport call fails in any way, including
the missing-credential error the transport throws immediately, never
propagates the error: the marker-stripped original comes back with the
processed marker appended; and the missing-credential transport failure is
immediate, with zero attempts and no retry. -/
theorem fixResumeFormatting_failure_fallback :
    (∀ (content : Str) (e : PplxError), jsTrim content ≠ [] →
      fixResumeFormatting content (.error e) =
        cleanContent content ++ formattedMarker) ∧
    (∀ (retriesOpt : Option Nat) (attempt : Nat → PplxAttempt),
      callPplxApi none retriesOpt attempt =
        { result := .error .noApiKey, attemptsMade := 0, delaysMs := [] }) :=
  ⟨fun content e h => fixResumeFormatting_error content e h,
   fun _ _ => rfl⟩

/-- Concrete run of the C4 fallback: a missing-credential failure on a short
input returns the original content with the marker, and the credential-less
transport makes zero attempts. -/
theorem fixResumeFormatting_failure_fallback_witness :
    jsTrim (lit "Hello") ≠ [] ∧
    fixResumeFormatting (lit "Hello") (.error .noApiKey) =
      cleanContent (lit "Hello") ++ formattedMarker ∧
    callPplxApi none none (fun _ => .err .timeoutFail) =
      { result := .error .noApiKey, attemptsMade := 0, delaysMs := [] } :=
  ⟨by decide,
   fixResumeFormatting_failure_fallback.1 (lit "Hello") .noApiKey (by decide),
   fixResumeFormatting_failure_fallback.2 none (fun _ => .err .timeoutFail)⟩

theorem fix_merge_eq (content raw : Str) (hTrim : jsTrim content ≠ [])
    (hLen : MAX_CONTENT_LENGTH < (cleanContent content).length)
    (hF : jsTrim (formatCleanup raw) ≠ []) :
    fixResumeFormatting content (.ok raw) =
      finalBulletCleanup (formatCleanup raw ++
        (cleanContent content).drop MAX_CONTENT_LENGTH) ++ formattedMarker := by
  have hcond : MAX_CONTENT_LENGTH < (cleanContent content).length ∧
      0 < (formatCleanup raw).length :=
    ⟨hLen, formatCleanup_ne_nil_pos hF⟩
  unfold fixResumeFormatting
  rw [if_neg hTrim]
  show (if jsTrim (formatCleanup raw) = [] then
      cleanContent content ++ formattedMarker
    else
      finalBulletCleanup
        (if MAX_CONTENT_LENGTH < (cleanContent content).length ∧
            0 < (formatCleanup raw).length then
          formatCleanup raw ++ (cleanContent content).drop MAX_CONTENT_LENGTH
        else formatCleanup raw) ++ formattedMarker) = _
  rw [if_neg hF, if_pos hcond]

theorem fix_merge_len (content raw : Str) (hTrim : jsTrim content ≠ [])
    (hLen : MAX_CONTENT_LENGTH < (cleanContent content).length)
    (hF : jsTrim (formatCleanup raw) ≠ [])
    (hB : finalBulletCleanup (formatCleanup raw ++
            (cleanContent content).drop MAX_CONTENT_LENGTH) =
          formatCleanup raw ++
            (cleanContent content).drop MAX_CONTENT_LENGTH) :
    (fixResumeFormatting content (.ok raw)).length =
      (formatCleanup raw).length +
        ((cleanContent content).length - MAX_CONTENT_LENGTH) +
        formattedMarker.length := by
  rw [fix_merge_eq content raw hTrim hLen hF, hB]
  simp only [List.length_append, List.length_drop]

theorem c6Input_length : c6Input.length = 6001 := by
  unfold c6Input
  exact List.length_replicate 6001 'a'

theorem strEnds_marker_c6 : strEnds formattedMarker c6Input = false := by
  have hdrop : c6Input.drop (c6Input.length - formattedMarker.length) =
      List.replicate 15 'a' := by
    rw [c6Input_length, show formattedMarker.length = 15 from rfl]
    show c6Input.drop 5986 = List.replicate 15 'a'
    unfold c6Input
    rw [List.drop_replicate]
  unfold strEnds
  rw [hdrop]
  decide

theorem c6_clean : cleanContent c6Input = c6Input := by
  unfold cleanContent
  rw [strEnds_marker_c6]
  simp

theorem c6_hTrim : jsTrim c6Input ≠ [] := by
  unfold c6Input
  rw [jsTrim_replicate (by decide)]
  intro h
  have hlen := congrArg List.length h
  rw [List.length_replicate] at hlen
  exact absurd hlen (by decide)

theorem c6_len : (cleanContent c6Input).length = 6001 := by
  rw [c6_clean]
  exact c6Input_length

theorem c6_drop : (cleanContent c6Input).drop MAX_CONTENT_LENGTH = ['a'] := by
  rw [c6_clean]
  show c6Input.drop 6000 = ['a']
  unfold c6Input
  rw [List.drop_replicate]
  norm_num

theorem c6_hB :
    finalBulletCleanup (formatCleanup (lit "X") ++
        (cleanContent c6Input).drop MAX_CONTENT_LENGTH) =
      formatCleanup (lit "X") ++
        (cleanContent c6Input).drop MAX_CONTENT_LENGTH := by
  rw [c6_drop]
  decide

/-- C6 counterexample: at the 6001-letter input with model reply X, the
returned string has length 17 (cleaned prefix 1, remainder 1, marker 15),
not cleaned-prefix length plus original-minus-cap = 2: the claim as stated
omits the appended processed marker. -/
theorem fixResumeFormatting_merge_length_cex :
    ¬ ((fixResumeFormatting c6Input (.ok (lit "X"))).length =
        (formatCleanup (lit "X")).length +
          ((cleanContent c6Input).length - MAX_CONTENT_LENGTH)) := by
  have h := fix_merge_len c6Input (lit "X") c6_hTrim
    (by rw [c6_len]; decide) (by decide) c6_hB
  rw [h, c6_len]
  decide

/-- C6 (amended): for an input whose marker-stripped text exceeds the
6000-character cap and a model reply whose cleaned text is nonempty, the
returned string's length equals the cleaned model prefix's length plus
(original length minus the cap) plus the length of the appended processed
marker, provided the final bullet-normalization pass leaves the merged text
unchanged (as it does whenever no bullet glyph remains); the untouched
remainder beyond the cap is concatenated back, so no content is lost. -/
theorem fixResumeFormatting_merge_length (content raw : Str)
    (hTrim : jsTrim content ≠ [])
    (hLen : MAX_CONTENT_LENGTH < (cleanContent content).length)
    (hF : jsTrim (formatCleanup raw) ≠ [])
    (hB : finalBulletCleanup (formatCleanup raw ++
            (cleanContent content).drop MAX_CONTENT_LENGTH) =
          formatCleanup raw ++
            (cleanContent content).drop MAX_CONTENT_LENGTH) :
    (fixResumeFormatting content (.ok raw)).length =
      (formatCleanup raw).length +
        ((cleanContent content).length - MAX_CONTENT_LENGTH) +
        formattedMarker.length :=
  fix_merge_len content raw hTrim hLen hF hB

/-- Concrete run of the amended C6 statement at the 6001-letter input: the
returned length is cleaned-prefix length plus one plus the marker length. -/
theorem fixResumeFormatting_merge_length_witness :
    jsTrim c6Input ≠ [] ∧
    MAX_CONTENT_LENGTH < (cleanContent c6Input).length ∧
    (fixResumeFormatting c6Input (.ok (lit "X"))).length =
      (formatCleanup (lit "X")).length +
        ((cleanContent c6Input).length - MAX_CONTENT_LENGTH) +
        formattedMarker.length :=
  ⟨c6_hTrim, by rw [c6_len]; decide,
   fixResumeFormatting_merge_length c6Input (lit "X") c6_hTrim
     (by rw [c6_len]; decide) (by decide) c6_hB⟩

end Moonstone.ResumeFormatter

namespace Moonstone.PplxApiLegacy

open Moonstone.ResumeFormatter (formattedMarker)

/-- C7: content already carrying the processed marker returns byte-identical
(marker included) through the skip-if-marked path with no upstream request;
content without the marker — as produced by a caller stripping the marker to
force reprocessing — does reach upstream (exactly one request). -/
theorem fixResumeFormatting_skip_if_marked :
    (∀ (content : Str) (apiKey : Option Str)
       (api : Except Moonstone.PplxApi.PplxFailure Str),
        jsTrim content ≠ [] → strEnds formattedMarker content = true →
        fixResumeFormatting content apiKey api = (content, 0)) ∧
    (∀ (content : Str) (key : Str)
       (api : Except Moonstone.PplxApi.PplxFailure Str),
        jsTrim content ≠ [] → strEnds formattedMarker content = false →
        (fixResumeFormatting content (some key) api).2 = 1) := by
  constructor
  · intro content apiKey api hT hM
    unfold fixResumeFormatting
    rw [if_neg hT, if_pos hM]
  · intro content key api hT hM
    unfold fixResumeFormatting
    rw [if_neg hT, if_neg (by rw [hM]; exact Bool.false_ne_true)]
    cases api with
    | error e => rfl
    | ok raw =>
      show (if jsTrim (formatCleanup raw) = [] then
          (content ++ formattedMarker, 1)
        else
          ((if MAX_CONTENT_LENGTH < content.length ∧
              0 < (formatCleanup raw).length then
            formatCleanup raw ++ content.drop MAX_CONTENT_LENGTH
          else formatCleanup raw) ++ formattedMarker, 1)).2 = 1
      by_cases h2 : jsTrim (formatCleanup raw) = []
      · rw [if_pos h2]
      · rw [if_neg h2]

/-- Concrete run of the C7 contract: marked content is returned unchanged
with no request; the same content with the marker stripped (as the editor
caller does before forcing reprocessing) issues one request. -/
theorem fixResumeFormatting_skip_if_marked_witness :
    jsTrim (lit "Hi___FORMATTED___") ≠ [] ∧
    fixResumeFormatting (lit "Hi___FORMATTED___") (some (lit "k"))
        (.ok (lit "X")) = (lit "Hi___FORMATTED___", 0) ∧
    (fixResumeFormatting
        (replaceFirstStr formattedMarker [] (lit "Hi___FORMATTED___"))
        (some (lit "k")) (.ok (lit "X"))).2 = 1 :=
  ⟨by decide,
   fixResumeFormatting_skip_if_marked.1 (lit "Hi___FORMATTED___")
     (some (lit "k")) (.ok (lit "X")) (by decide) (by decide),
   fixResumeFormatting_skip_if_marked.2
     (replaceFirstStr formattedMarker [] (lit "Hi___FORMATTED___"))
     (lit "k") (.ok (lit "X")) (by decide) (by decide)⟩

end Moonstone.PplxApiLegacy

namespace Moonstone.KeywordExtractor

open Moonstone.PplxApi

theorem contains_eq_true_iff (seen : List Str) (x : Str) :
    seen.contains x = true ↔ x ∈ seen := by simp

theorem dedupCI_sublist (l : List Str) :
    ∀ seen, (dedupCI seen l).Sublist l := by
  induction l with
  | nil => intro seen; exact List.Sublist.refl []
  | cons k ks ih =>
    intro seen
    unfold dedupCI
    by_cases hm : strLower k ∈ seen
    · rw [if_pos ((contains_eq_true_iff _ _).mpr hm)]
      exact (ih seen).cons k
    · rw [if_neg (by rw [contains_eq_true_iff]; exact hm)]
      exact (ih (strLower k :: seen)).cons₂ k

theorem dedupCI_not_seen (l : List Str) :
    ∀ seen, ∀ y ∈ dedupCI seen l, strLower y ∉ seen := by
  induction l with
  | nil => intro seen y hy; cases hy
  | cons k ks ih =>
    intro seen y hy
    unfold dedupCI at hy
    by_cases hm : strLower k ∈ seen
    · rw [if_pos ((contains_eq_true_iff _ _).mpr hm)] at hy
      exact ih seen y hy
    · rw [if_neg (by rw [contains_eq_true_iff]; exact hm)] at hy
      rcases List.mem_cons.mp hy with rfl | hy2
      · exact hm
      · have := ih (strLower k :: seen) y hy2
        exact fun hsy => this (List.mem_cons_of_mem _ hsy)

theorem dedupCI_pairwise (l : List Str) :
    ∀ seen, (dedupCI seen l).Pairwise (fun a b => strLower a ≠ strLower b) := by
  induction l with
  | nil => intro seen; exact List.Pairwise.nil
  | cons k ks ih =>
    intro seen
    unfold dedupCI
    by_cases hm : strLower k ∈ seen
    · rw [if_pos ((contains_eq_true_iff _ _).mpr hm)]
      exact ih seen
    · rw [if_neg (by rw [contains_eq_true_iff]; exact hm)]
      refine List.Pairwise.cons ?_ (ih _)
      intro b hb hEq
      exact dedupCI_not_seen ks (strLower k :: seen) b hb
        (hEq ▸ List.mem_cons_self _ _)

theorem dedupCI_covers (l : List Str) :
    ∀ seen, ∀ x ∈ l,
      strLower x ∈ seen ∨
        ∃ y ∈ dedupCI seen l, strLower y = strLower x := by
  induction l with
  | nil => intro seen x hx; cases hx
  | cons k ks ih =>
    intro seen x hx
    unfold dedupCI
    by_cases hm : strLower k ∈ seen
    · rw [if_pos ((contains_eq_true_iff _ _).mpr hm)]
      rcases List.mem_cons.mp hx with rfl | hx2
      · exact Or.inl hm
      · exact ih seen x hx2
    · rw [if_neg (by rw [contains_eq_true_iff]; exact hm)]
      rcases List.mem_cons.mp hx with rfl | hx2
      · exact Or.inr ⟨x, List.mem_cons_self _ _, rfl⟩
      · rcases ih (strLower k :: seen) x hx2 with hseen | ⟨y, hy, hys⟩
        · rcases List.mem_cons.mp hseen with heq | hseen2
          · exact Or.inr ⟨k, List.mem_cons_self _ _, heq.symm⟩
          · exact Or.inl hseen2
        · exact Or.inr ⟨y, List.mem_cons_of_mem _ hy, hys⟩

theorem validKeywords_pos (keywords : List JsVal) :
    ∀ k ∈ validKeywords keywords, 0 < k.length := by
  intro k hk
  have h := List.of_mem_filter hk
  simp at h
  exact List.length_pos.mpr h

theorem missingTermsGo_mem (valid : List Str) (raw jd : Str) :
    ∀ (l : List (Str × Str)) (acc : List Str) (x : Str),
      x ∈ missingTermsGo valid raw jd l acc →
      x ∈ acc ∨ x ∈ l.map Prod.snd := by
  intro l
  induction l with
  | nil => intro acc x hx; exact Or.inl hx
  | cons tp rest ih =>
    intro acc x hx
    unfold missingTermsGo at hx
    split_ifs at hx with h1 h2 h3
    · rcases ih acc x hx with h | h
      · exact Or.inl h
      · exact Or.inr (by simp [h])
    · rcases ih (acc ++ [tp.2]) x hx with h | h
      · rcases List.mem_append.mp h with h | h
        · exact Or.inl h
        · exact Or.inr (by simp [List.mem_singleton.mp h])
      · exact Or.inr (by simp [h])
    · rcases ih (acc ++ [tp.2]) x hx with h | h
      · rcases List.mem_append.mp h with h | h
        · exact Or.inl h
        · exact Or.inr (by simp [List.mem_singleton.mp h])
      · exact Or.inr (by simp [h])
    · rcases ih acc x hx with h | h
      · exact Or.inl h
      · exact Or.inr (by simp [h])

theorem mem_if_append {b : Bool} {ms : List Str} {t x : Str}
    (hx : x ∈ (if b = true then ms ++ [t] else ms)) : x ∈ ms ∨ x = t := by
  cases b with
  | false => exact Or.inl (by simpa using hx)
  | true => simpa using hx

theorem missingTerms_mem (valid : List Str) (raw jd : Str) :
    ∀ x ∈ missingTerms valid raw jd,
      x ∈ importantTerms.map Prod.snd ++
        [lit "C++", lit "Python", lit "Java"] := by
  intro x hx
  simp only [missingTerms] at hx
  rcases mem_if_append hx with hx2 | rfl
  · rcases mem_if_append hx2 with hx3 | rfl
    · rcases mem_if_append hx3 with hx4 | rfl
      · rcases missingTermsGo_mem valid raw jd importantTerms [] x hx4 with
          h | h
        · cases h
        · exact List.mem_append.mpr (Or.inl h)
      · exact List.mem_append.mpr (Or.inr (by decide))
    · exact List.mem_append.mpr (Or.inr (by decide))
  · exact List.mem_append.mpr (Or.inr (by decide))

theorem enriched_pos (keywords : List JsVal) (raw jd : Str) :
    ∀ x ∈ enrichedKeywords keywords raw jd, 0 < x.length := by
  intro x hx
  rcases List.mem_append.mp hx with h | h
  · exact validKeywords_pos keywords x h
  · have hmem := missingTerms_mem (validKeywords keywords) raw jd x h
    have hall : ∀ t ∈ importantTerms.map Prod.snd ++
        [lit "C++", lit "Python", lit "Java"], 0 < t.length := by decide
    exact hall x hmem

theorem validateAndEnrich_pos (keywords : List JsVal) (raw jd : Str) :
    ∀ k ∈ validateAndEnrichKeywords keywords raw jd, 0 < k.length := by
  intro k hk
  exact enriched_pos keywords raw jd k
    ((dedupCI_sublist _ []).subset hk)

/-- C2: the enrichment output has no two entries equal under
case-insensitive comparison, every entry is nonempty, and the output is an
order-preserving subsequence of the enriched (pre-deduplication) list that
keeps a representative of every entry's case class — first-seen order is
preserved. -/
theorem validateAndEnrichKeywords_invariants (keywords : List JsVal)
    (rawResponse jd : Str) :
    (validateAndEnrichKeywords keywords rawResponse jd).Pairwise
        (fun a b => strLower a ≠ strLower b) ∧
    (∀ k ∈ validateAndEnrichKeywords keywords rawResponse jd, 0 < k.length) ∧
    (validateAndEnrichKeywords keywords rawResponse jd).Sublist
        (enrichedKeywords keywords rawResponse jd) ∧
    (∀ x ∈ enrichedKeywords keywords rawResponse jd,
      ∃ y ∈ validateAndEnrichKeywords keywords rawResponse jd,
        strLower y = strLower x) := by
  refine ⟨dedupCI_pairwise _ [], validateAndEnrich_pos _ _ _,
    dedupCI_sublist _ [], ?_⟩
  intro x hx
  rcases dedupCI_covers (enrichedKeywords keywords rawResponse jd) [] x hx with
    h | h
  · cases h
  · exact h

end Moonstone.KeywordExtractor

namespace Moonstone.KeywordExtractor

open Moonstone.PplxApi

theorem jobMatchesResult_error (jd : Str) :
    jobMatchesResult jd = .error () := by
  unfold jobMatchesResult technicalTerms
  unfold jobMatchesGo
  rw [if_pos (by decide : regexTermCompiles (lit "Python") = true)]
  by_cases h : wbTestCI (lit "Python") jd = true
  · rw [if_pos h]
    unfold jobMatchesGo
    rw [if_neg (by decide : ¬ regexTermCompiles (lit "C++") = true)]
  · rw [if_neg h]
    unfold jobMatchesGo
    rw [if_neg (by decide : ¬ regexTermCompiles (lit "C++") = true)]

theorem extractFromResult_pos (jsonParse : Str → Option (List JsVal))
    (result jd : Str) :
    ∀ k ∈ extractFromResult jsonParse result jd, 0 < k.length := by
  intro k hk
  unfold extractFromResult at hk
  cases h1 : stage1 jsonParse result with
  | some arr => rw [h1] at hk; exact validateAndEnrich_pos arr result jd k hk
  | none =>
  rw [h1] at hk
  cases h2 : stage2 jsonParse result with
  | some arr => rw [h2] at hk; exact validateAndEnrich_pos arr result jd k hk
  | none =>
  rw [h2] at hk
  cases h3 : stage3 result with
  | some ks => rw [h3] at hk; exact validateAndEnrich_pos _ result jd k hk
  | none =>
  rw [h3] at hk
  cases h4 : stage4 result with
  | some ps => rw [h4] at hk; exact validateAndEnrich_pos _ result jd k hk
  | none =>
  rw [h4, jobMatchesResult_error jd] at hk
  cases hk

theorem extractKeywords_pos (jsonParse : Str → Option (List JsVal))
    (apiValidated : Bool) (jd : Str) (api : Except PplxError Str) :
    ∀ k ∈ extractKeywordsWithPplx jsonParse apiValidated jd api,
      0 < k.length := by
  intro k hk
  unfold extractKeywordsWithPplx at hk
  split_ifs at hk with h1 h2 h3
  · cases hk
  · have hall : ∀ t ∈ [lit "Software Engineer", lit "React",
        lit "JavaScript"], 0 < t.length := by decide
    exact hall k hk
  · cases hk
  · cases api with
    | error e => cases hk
    | ok result =>
      have hk2 : k ∈ (if jsTrim result = [] then ([] : List Str)
          else extractFromResult jsonParse result jd) := hk
      by_cases h4 : jsTrim result = []
      · rw [if_pos h4] at hk2; cases hk2
      · rw [if_neg h4] at hk2
        exact extractFromResult_pos jsonParse result jd k hk2

/-- C1: for every job description, transport outcome and JSON.parse
behavior, the keyword extraction resolves (it is total: errors are caught)
to a sequence whose every element is nonempty; and whenever every parsing
stage of the cascade fails — direct parse, bracket extraction, comma split
and quoted phrases — the cascade resolves to the empty sequence rather than
an error, with no further condition: the manual fallback always throws the
SyntaxError of the unescaped C++ regex, which the catch converts to the
empty sequence. -/
theorem extractKeywordsWithPplx_contract :
    (∀ (jsonParse : Str → Option (List JsVal)) (apiValidated : Bool)
       (jd : Str) (api : Except PplxError Str),
        ∀ k ∈ extractKeywordsWithPplx jsonParse apiValidated jd api,
          0 < k.length) ∧
    (∀ (jsonParse : Str → Option (List JsVal)) (result jd : Str),
        stage1 jsonParse result = none → stage2 jsonParse result = none →
        stage3 result = none → stage4 result = none →
        extractFromResult jsonParse result jd = []) := by
  refine ⟨extractKeywords_pos, ?_⟩
  intro jsonParse result jd h1 h2 h3 h4
  unfold extractFromResult
  rw [h1, h2, h3, h4, jobMatchesResult_error jd]

/-- Concrete run of the C1 contract: a response with no structure at all
(no JSON, no brackets, no commas, no quotes) resolves to the empty
sequence, even over a job description that mentions known technical
terms. -/
theorem extractKeywordsWithPplx_contract_witness :
    stage3 (lit "nope") = none ∧
    extractFromResult (fun _ => none) (lit "nope")
      (lit "Experience with Python and C++ required") = [] :=
  ⟨by decide,
   extractKeywordsWithPplx_contract.2 (fun _ => none) (lit "nope")
     (lit "Experience with Python and C++ required") rfl (by decide)
     (by decide) (by decide)⟩

/-- C5: the scenario job description mentioning Python and C++, with a model
reply whose parsed array contains only Python, yields — after the cascade
and enrichment — a keyword list containing both Python and C++. -/
theorem extractKeywords_cpp_scenario :
    lit "Python" ∈ extractKeywordsWithPplx jsonParseSimple false
        (lit "Experience with Python and C++ required")
        (.ok (lit "Sure! Here's the list: [\"Python\"]")) ∧
    lit "C++" ∈ extractKeywordsWithPplx jsonParseSimple false
        (lit "Experience with Python and C++ required")
        (.ok (lit "Sure! Here's the list: [\"Python\"]")) := by
  decide

end Moonstone.KeywordExtractor

namespace Moonstone.KeywordMatchVisualizer

open Moonstone.PplxApi Moonstone.KeywordExtractor

theorem extractKeywords_error_empty (jsonParse : Str → Option (List JsVal))
    (apiValidated : Bool) (jd : Str) (e : PplxError)
    (hNotShortcut : ¬(isApiValidationJob jd = true ∧ apiValidated = true)) :
    extractKeywordsWithPplx jsonParse apiValidated jd (.error e) = [] := by
  unfold extractKeywordsWithPplx
  split_ifs with h1 h2 h3
  · rfl
  · exact absurd (by simpa using h2 : _ ∧ _) hNotShortcut
  · rfl
  · rfl

/-- C8: when the job description reaches the transport and every attempt
within the retry budget times out, the orchestration returns the local
non-AI heuristic's output (filtered by the removed set) to the UI, not an
error: the transport throws the timeout, the extractor catches it and
resolves with the empty list, and the component adopts the local
extraction. -/
theorem extraction_timeout_falls_back_to_local
    (jsonParse : Str → Option (List JsVal)) (jd : Str) (removed : List Str)
    (key : Str) (retriesOpt : Option Nat) (attempt : Nat → PplxAttempt)
    (apiValidated : Bool)
    (hTimeout : ∀ i, i ≤ jsOrDefault retriesOpt 2 →
      attempt i = .err .timeoutFail)
    (hNotShortcut : ¬(isApiValidationJob jd = true ∧ apiValidated = true)) :
    getKeywordsResult true true
        (extractKeywordsWithPplx jsonParse apiValidated jd
          (callPplxApi (some key) retriesOpt attempt).result)
        removed jd =
      (extractKeywordsLocally jd).filter (fun k => !(removed.contains k)) := by
  have hloop := pplxRetryLoop_allTimeout (jsOrDefault retriesOpt 2) 0 attempt
    (fun i hi => by simpa using hTimeout i hi)
  have hres : (callPplxApi (some key) retriesOpt attempt).result =
      .error (.upstream .timeoutFail) := by
    show (pplxRetryLoop attempt 0 (jsOrDefault retriesOpt 2)).result = _
    rw [hloop]
  rw [hres,
    extractKeywords_error_empty jsonParse apiValidated jd _ hNotShortcut]
  rfl

/-- Concrete run of the C8 fallback: a plain job description with all
transport attempts timing out yields exactly the local heuristic's output. -/
theorem extraction_timeout_falls_back_to_local_witness :
    (∀ i, i ≤ jsOrDefault none 2 →
      (fun _ => PplxAttempt.err .timeoutFail) i = .err .timeoutFail) ∧
    getKeywordsResult true true
        (extractKeywordsWithPplx (fun _ => none) false
          (lit "We need engineers with excellent skills")
          (callPplxApi (some (lit "k")) none
            (fun _ => .err .timeoutFail)).result)
        [] (lit "We need engineers with excellent skills") =
      (extractKeywordsLocally (lit "We need engineers with excellent skills")).filter
        (fun k => !(([] : List Str).contains k)) :=
  ⟨fun _ _ => rfl,
   extraction_timeout_falls_back_to_local (fun _ => none)
     (lit "We need engineers with excellent skills") [] (lit "k") none
     (fun _ => .err .timeoutFail) false (fun _ _ => rfl) (by decide)⟩

end Moonstone.KeywordMatchVisualizer

namespace Moonstone.SingleRun

theorem tickAll_replicate_const (d : Nat) (kw : List Str) (success : Bool)
    (n : Nat) (c c' : CallerSt) (g : SysSt)
    (h : callerStep d kw success c g = (c', g)) :
    tickAll d kw success (List.replicate n c) g =
      (List.replicate n c', g) := by
  induction n with
  | zero => rfl
  | succ n ih =>
    rw [List.replicate_succ]
    unfold tickAll
    rw [h]
    simp only [ih, List.replicate_succ]

theorem tick1 (d : Nat) (kw : List Str) (success : Bool) (n : Nat) :
    runSys d kw success 1 (.startSt :: List.replicate n .startSt, initSys) =
      (.awaitTransport d :: List.replicate n (.polling 10), midSys) := by
  show tickAll d kw success (.startSt :: List.replicate n .startSt) initSys =
    _
  have h0 : callerStep d kw success .startSt initSys =
      (.awaitTransport d, midSys) := by
    simp [callerStep, initSys, startCall, midSys]
  have hj : callerStep d kw success .startSt midSys =
      (.polling 10, midSys) := by
    simp [callerStep, midSys]
  unfold tickAll
  rw [h0]
  simp only [tickAll_replicate_const d kw success n _ _ _ hj]

theorem run_awaitPhase (d : Nat) (kw : List Str) (success : Bool) (n : Nat)
    (hd : d ≤ 10) :
    ∀ t, t ≤ d →
      runSys d kw success (1 + t)
          (.startSt :: List.replicate n .startSt, initSys) =
        (.awaitTransport (d - t) :: List.replicate n (.polling (10 - t)),
          midSys) := by
  intro t
  induction t with
  | zero =>
    intro _
    simpa using tick1 d kw success n
  | succ t ih =>
    intro ht
    have h1 := ih (by omega)
    show tickAll d kw success
        (runSys d kw success (1 + t)
          (.startSt :: List.replicate n .startSt, initSys)).1
        (runSys d kw success (1 + t)
          (.startSt :: List.replicate n .startSt, initSys)).2 = _
    rw [h1]
    obtain ⟨k, hk⟩ : ∃ k, d - t = k + 1 := ⟨d - t - 1, by omega⟩
    obtain ⟨m, hm⟩ : ∃ m, 10 - t = m + 1 := ⟨10 - t - 1, by omega⟩
    rw [hk, hm]
    have hj : callerStep d kw success (.polling (m + 1)) midSys =
        (.polling m, midSys) := by
      simp [callerStep, midSys]
    show ((callerStep d kw success (.awaitTransport (k + 1)) midSys).1 ::
        (tickAll d kw success (List.replicate n (.polling (m + 1)))
          (callerStep d kw success (.awaitTransport (k + 1)) midSys).2).1,
      (tickAll d kw success (List.replicate n (.polling (m + 1)))
          (callerStep d kw success (.awaitTransport (k + 1)) midSys).2).2) = _
    rw [show callerStep d kw success (.awaitTransport (k + 1)) midSys =
        (.awaitTransport k, midSys) from rfl]
    rw [tickAll_replicate_const d kw success n _ _ _ hj]
    rw [show d - (t + 1) = k from by omega, show 10 - (t + 1) = m from by omega]

theorem run_complete (d : Nat) (kw : List Str) (n : Nat) (hd : d ≤ 10) :
    runSys d kw true (d + 2)
        (.startSt :: List.replicate n .startSt, initSys) =
      (.doneSt kw :: List.replicate n (.doneSt kw), endSys kw) := by
  have hA := run_awaitPhase d kw true n hd d (Nat.le_refl d)
  rw [Nat.sub_self] at hA
  show tickAll d kw true
      (runSys d kw true (d + 1)
        (.startSt :: List.replicate n .startSt, initSys)).1
      (runSys d kw true (d + 1)
        (.startSt :: List.replicate n .startSt, initSys)).2 = _
  rw [show d + 1 = 1 + d from Nat.add_comm d 1, hA]
  have h0 : callerStep d kw true (.awaitTransport 0) midSys =
      (.doneSt kw, endSys kw) := by
    simp [callerStep, midSys, endSys]
  have hj : callerStep d kw true (.polling (10 - d)) (endSys kw) =
      (.doneSt kw, endSys kw) := by
    cases h10 : 10 - d with
    | zero => simp [callerStep, afterPoll, endSys]
    | succ m => simp [callerStep, afterPoll, endSys]
  unfold tickAll
  rw [h0]
  simp only [tickAll_replicate_const d kw true n _ _ _ hj]

theorem run_awaitPhase_solo (d : Nat) (kw : List Str) (success : Bool) :
    ∀ t, t ≤ d →
      runSys d kw success (1 + t) ([.startSt], initSys) =
        ([.awaitTransport (d - t)], midSys) := by
  intro t
  induction t with
  | zero =>
    intro _
    simpa using tick1 d kw success 0
  | succ t ih =>
    intro ht
    have h1 := ih (by omega)
    show tickAll d kw success
        (runSys d kw success (1 + t) ([.startSt], initSys)).1
        (runSys d kw success (1 + t) ([.startSt], initSys)).2 = _
    rw [h1]
    obtain ⟨k, hk⟩ : ∃ k, d - t = k + 1 := ⟨d - t - 1, by omega⟩
    rw [hk]
    show ((callerStep d kw success (.awaitTransport (k + 1)) midSys).1 ::
        (tickAll d kw success []
          (callerStep d kw success (.awaitTransport (k + 1)) midSys).2).1,
      (tickAll d kw success []
          (callerStep d kw success (.awaitTransport (k + 1)) midSys).2).2) = _
    rw [show callerStep d kw success (.awaitTransport (k + 1)) midSys =
        (.awaitTransport k, midSys) from rfl]
    rw [show d - (t + 1) = k from by omega]
    rfl

theorem run_solo (d : Nat) (kw : List Str) (success : Bool) :
    runSys d kw success (d + 2) ([.startSt], initSys) =
      ([.doneSt (if success then kw else [])],
       { pending := false, cache := if success then some kw else none,
         calls := 1 }) := by
  have hA := run_awaitPhase_solo d kw success d (Nat.le_refl d)
  rw [Nat.sub_self] at hA
  show tickAll d kw success
      (runSys d kw success (d + 1) ([.startSt], initSys)).1
      (runSys d kw success (d + 1) ([.startSt], initSys)).2 = _
  rw [show d + 1 = 1 + d from Nat.add_comm d 1, hA]
  cases success with
  | true => simp [tickAll, callerStep, midSys]
  | false => simp [tickAll, callerStep, midSys]

/-- C9 counterexample: two simultaneous callers with one fingerprint, with
the transport taking eleven 500 ms ticks — longer than the late joiner's
ten-poll window: the joiner exhausts its polls, finds no cache entry, and
issues its own request, so two transport invocations occur, not exactly
one. -/
theorem singleFlight_two_invocations_cex :
    ¬ ((runSys 11 [lit "K"] true 25
        (.startSt :: List.replicate 1 .startSt, initSys)).2.calls = 1) := by
  decide

/-- C9 (amended): for N simultaneous extraction calls with an identical
fingerprint, when the first request completes within the late joiners'
bounded poll window (at most ten 500 ms polls), exactly one transport
invocation occurs and every caller receives the same cached keyword list;
the pending entry is created when the request starts and removed when it
finishes, on success or failure alike (a single caller's run shows pending
true after the first tick and false at the end for both outcomes).  Beyond
that window a late joiner issues its own redundant request (see the
counterexample), so exactly-one is not unconditional. -/
theorem singleFlight_amended (n d : Nat) (kw : List Str) (hd : d ≤ 10) :
    runSys d kw true (d + 2)
        (.startSt :: List.replicate n .startSt, initSys) =
      (.doneSt kw :: List.replicate n (.doneSt kw), endSys kw) ∧
    (∀ success : Bool,
      (runSys d kw success 1 ([.startSt], initSys)).2.pending = true ∧
      (runSys d kw success (d + 2) ([.startSt], initSys)).2.pending =
        false) := by
  refine ⟨run_complete d kw n hd, ?_⟩
  intro success
  constructor
  · have h : runSys d kw success 1 ([.startSt], initSys) =
        ([.awaitTransport d], midSys) := tick1 d kw success 0
    rw [h]
    rfl
  · rw [run_solo d kw success]

/-- Concrete run of the amended C9 statement: two callers, a two-tick
transport, one invocation, both callers served from the one cached list. -/
theorem singleFlight_amended_witness :
    2 ≤ 10 ∧
    runSys 2 [lit "K"] true 4
        (.startSt :: List.replicate 1 .startSt, initSys) =
      (.doneSt [lit "K"] :: List.replicate 1 (.doneSt [lit "K"]),
        endSys [lit "K"]) :=
  ⟨by decide, (singleFlight_amended 1 2 [lit "K"] (by decide)).1⟩

end Moonstone.SingleRun
